import Mathlib

/-!
Verification of the ATCC traffic-counting pipeline
(`atcc_pipeline.py` and `atcc_analysis.py`).

The Python sources are embedded shallowly:

* Python `float` values are modelled as exact fractions (`Q` below): an
  integer numerator and denominator compared by cross-multiplication.
  Every float produced by the pipeline's arithmetic (line-side cross
  products, PHF ratios, daily means, PCU weights) is an exact rational,
  so this embedding is faithful up to float rounding, which none of the
  verified properties depend on.
* Python `dict`s are modelled as association lists (`alookup` / `aset`),
  preserving insertion order and first-key-wins lookup.
* `pandas` data frames are modelled as lists of rows; `groupby` is
  modelled as iteration over the sorted, deduplicated key list, summing
  over a filter, which is exactly pandas' observable behaviour here.
* Fallible code paths return `Except String`.
-/

/-- Exact fraction model of Python `float`: numerator over denominator.
Values built by the embedded code always have a positive denominator.
Comparisons are by cross-multiplication, so fractions need not be
normalised. -/
structure Q where
  n : Int
  d : Int
deriving DecidableEq, Repr

/-- Embed an integer as a fraction. -/
def Q.ofInt (k : Int) : Q := ⟨k, 1⟩

/-- Fraction addition. -/
def Q.add (a b : Q) : Q := ⟨a.n * b.d + b.n * a.d, a.d * b.d⟩

/-- Fraction subtraction. -/
def Q.sub (a b : Q) : Q := ⟨a.n * b.d - b.n * a.d, a.d * b.d⟩

/-- Fraction multiplication. -/
def Q.mul (a b : Q) : Q := ⟨a.n * b.n, a.d * b.d⟩

/-- Fraction reciprocal, keeping the denominator nonnegative. -/
def Q.inv (a : Q) : Q := if a.n < 0 then ⟨-a.d, -a.n⟩ else ⟨a.d, a.n⟩

/-- Fraction division, modelling Python `/` on floats. -/
def Q.div (a b : Q) : Q := a.mul b.inv

/-- Boolean equality test by cross-multiplication (Python `==` on floats). -/
def Q.eqb (a b : Q) : Bool := a.n * b.d == b.n * a.d

/-- Boolean strict-order test by cross-multiplication (Python `<` on floats);
correct whenever both denominators are nonzero, of either sign. -/
def Q.ltb (a b : Q) : Bool := 0 < (b.n * a.d - a.n * b.d) * (a.d * b.d)

/-- Propositional version of `Q.eqb`: the two fractions denote the same
rational number. -/
def Q.qeq (a b : Q) : Prop := a.eqb b = true

instance (a b : Q) : Decidable (Q.qeq a b) := by unfold Q.qeq; infer_instance

/-- Floor of a fraction (valid for any nonzero denominator, since `Int.fdiv`
rounds toward negative infinity). -/
def floorQ (q : Q) : Int := q.n.fdiv q.d

/-- Python `round(x)` on a float: round-half-to-even to the nearest integer. -/
def roundHalfEvenQ (q : Q) : Int :=
  let f := floorQ q
  let r := Q.sub q ⟨f, 1⟩
  if Q.ltb r ⟨1, 2⟩ then f
  else if Q.ltb ⟨1, 2⟩ r then f + 1
  else if f % 2 = 0 then f else f + 1

/-- Python `round(x, 3)` on a float: round-half-to-even to 3 decimals. -/
def round3 (q : Q) : Q := ⟨roundHalfEvenQ (Q.mul q ⟨1000, 1⟩), 1000⟩

/-- Association-list lookup modelling Python `dict.get` (first match wins). -/
def alookup {α β : Type} [DecidableEq α] : List (α × β) → α → Option β
  | [], _ => none
  | (k, v) :: rest, key => if k = key then some v else alookup rest key

/-- Association-list update modelling Python `dict[k] = v`: replace the
existing binding in place, or append a new binding at the end (dicts
preserve insertion order). -/
def aset {α β : Type} [DecidableEq α] : List (α × β) → α → β → List (α × β)
  | [], key, val => [(key, val)]
  | (k, v) :: rest, key, val =>
      if k = key then (key, val) :: rest else (k, v) :: aset rest key val

/-- Split a character list at every occurrence of `sep`
(Python `str.split(sep)`). -/
def splitChars (sep : Char) : List Char → List (List Char)
  | [] => [[]]
  | c :: cs =>
    let r := splitChars sep cs
    if c = sep then [] :: r
    else
      match r with
      | [] => [[c]]
      | g :: gs => (c :: g) :: gs

/-- Split a string at every occurrence of `sep` (Python `str.split(sep)`). -/
def strSplit (sep : Char) (s : String) : List String :=
  (splitChars sep s.data).map (fun cs => ⟨cs⟩)

/-- Lower-case a string (Python `str.lower()`). -/
def lowerStr (s : String) : String := ⟨s.data.map Char.toLower⟩

/-- Is every character an ASCII digit? -/
def allDigits (cs : List Char) : Bool := cs.all (fun c => '0' ≤ c && c ≤ '9')

/-- Numeric value of a digit list (most significant first). -/
def natOfDigits (cs : List Char) : Nat :=
  cs.foldl (fun acc c => 10 * acc + (c.toNat - '0'.toNat)) 0

/-- Parse a decimal natural number (Python `int(s)` on digit strings),
`none` when the string is empty or has a non-digit. -/
def parseNatStr (s : String) : Option Nat :=
  if s.data ≠ [] ∧ allDigits s.data then some (natOfDigits s.data) else none

/-- Parse a decimal literal into an exact fraction, modelling Python
`float(s)` on the plain decimal literals the pipeline configuration uses
(optional sign, digits, at most one decimal point). -/
def parseFloatQ (s : String) : Option Q :=
  let (sgn, rest) :=
    match s.data with
    | '-' :: t => ((-1 : Int), t)
    | '+' :: t => ((1 : Int), t)
    | t => ((1 : Int), t)
  match splitChars '.' rest with
  | [a] =>
      if a ≠ [] ∧ allDigits a then some ⟨sgn * natOfDigits a, 1⟩ else none
  | [a, b] =>
      if (a ++ b) ≠ [] ∧ allDigits (a ++ b) then
        some ⟨sgn * natOfDigits (a ++ b), (10 : Int) ^ b.length⟩
      else none
  | _ => none

/-- Two-digit zero padding (Python `f"{n:02d}"`). -/
def pad2 (n : Nat) : String := (if n < 10 then "0" else "") ++ toString n

/-- `hhmm` from `atcc_pipeline.py`: minutes from midnight rendered
as `HH:MM`. -/
def hhmm (minutesFromMidnight : Nat) : String :=
  pad2 (minutesFromMidnight / 60) ++ ":" ++ pad2 (minutesFromMidnight % 60)

/-- `Line` from `atcc_pipeline.py`: endpoints in absolute pixel
coordinates. -/
structure Line where
  p1 : Q × Q
  p2 : Q × Q
deriving DecidableEq

/-- `Line.side`: signed side of a point relative to the directed line
`p1 -> p2` using the cross product
`(x2 - x1) * (py - y1) - (y2 - y1) * (px - x1)`. -/
def Line.side (l : Line) (p : Q × Q) : Q :=
  Q.sub (Q.mul (Q.sub l.p2.1 l.p1.1) (Q.sub p.2 l.p1.2))
        (Q.mul (Q.sub l.p2.2 l.p1.2) (Q.sub p.1 l.p1.1))

/-- `parse_normalized_line` from `atcc_pipeline.py`: parse a normalized
`"x,y;x,y"` string into absolute pixel coordinates; any wrong token count
or non-numeric coordinate raises `ValueError`, modelled as `Except.error`. -/
def parseNormalizedLine (lineStr : String) (frameW frameH : Q) : Except String Line :=
  match strSplit ';' lineStr with
  | [p1s, p2s] =>
    match strSplit ',' p1s, strSplit ',' p2s with
    | [x1s, y1s], [x2s, y2s] =>
      match parseFloatQ x1s, parseFloatQ y1s, parseFloatQ x2s, parseFloatQ y2s with
      | some x1, some y1, some x2, some y2 =>
          .ok ⟨(Q.mul x1 frameW, Q.mul y1 frameH), (Q.mul x2 frameW, Q.mul y2 frameH)⟩
      | _, _, _, _ => .error "Invalid --line format. Expected x1,y1;x2,y2 with 0..1 values"
    | _, _ => .error "Invalid --line format. Expected x1,y1;x2,y2 with 0..1 values"
  | _ => .error "Invalid --line format. Expected x1,y1;x2,y2 with 0..1 values"

/-- `CountingConfig` from `atcc_pipeline.py`, with its default field
values. -/
structure CountingConfig where
  classMapOverrides : Option (List (String × String)) := none
  categoriesOrder : List String := ["2W", "3W", "Car", "LCV", "Bus", "Truck"]
  includeOthers : Bool := true
  pedestrianLabel : String := "Pedestrian"

/-- `DEFAULT_CLASS_TO_CATEGORY` from `atcc_pipeline.py`. -/
def DEFAULT_CLASS_TO_CATEGORY : List (String × String) :=
  [("person", "Pedestrian"), ("bicycle", "2W"), ("motorbike", "2W"),
   ("motorcycle", "2W"), ("car", "Car"), ("bus", "Bus"), ("truck", "Truck"),
   ("auto", "3W"), ("autorickshaw", "3W"), ("rickshaw", "3W"),
   ("three-wheeler", "3W"), ("mini-truck", "LCV"), ("pickup", "LCV"),
   ("van", "LCV")]

/-- Python `a or b` on optional strings: the first operand unless it is
falsy (`None` or the empty string). -/
def pyOrStr (a b : Option String) : Option String :=
  match a with
  | some s => if s = "" then b else some s
  | none => b

/-- Python truthiness of an optional string. -/
def truthyStr : Option String → Bool
  | some s => s ≠ ""
  | none => false

/-- `category_for_class` from `atcc_pipeline.py`: map a model class name to
`(category, is_pedestrian)`. Resolution order: caller overrides (a truthy,
i.e. nonempty, override dict), then the supplied names map `or` the built-in
default table, then the person/pedestrian fallback, then
Others/Unknown. -/
def categoryForClass (className : String) (namesMap : List (String × String))
    (cfg : CountingConfig) : String × Bool :=
  let lower := lowerStr className
  let ovHit : Option String :=
    match cfg.classMapOverrides with
    | some ov => if ov = [] then none else alookup ov lower
    | none => none
  match ovHit with
  | some mapped => (mapped, mapped == cfg.pedestrianLabel)
  | none =>
    let mapped := pyOrStr (alookup namesMap lower) (alookup DEFAULT_CLASS_TO_CATEGORY lower)
    if truthyStr mapped then
      ((mapped.getD ""), mapped.getD "" == cfg.pedestrianLabel)
    else if lower = "person" ∨ lower = "pedestrian" then
      (cfg.pedestrianLabel, true)
    else
      ((if cfg.includeOthers then "Others" else "Unknown"), false)

/-- One tracked detection handed to the counting loop: persistent object
identifier, model class identifier, and bounding box `(x1, y1, x2, y2)` in
pixel space. The list of detections for a clip is the frame stream
flattened in frame order (frames with no boxes contribute nothing). -/
structure Detection where
  objId : Nat
  cls : Nat
  x1 : Q
  y1 : Q
  x2 : Q
  y2 : Q
deriving DecidableEq

/-- Side of the counting line for a detection's box centre
(`cx = (x1+x2)/2`, `cy = (y1+y2)/2` in `count_vehicles_in_video`). -/
def detSide (line : Line) (d : Detection) : Q :=
  line.side (Q.div (Q.add d.x1 d.x2) ⟨2, 1⟩, Q.div (Q.add d.y1 d.y2) ⟨2, 1⟩)

/-- Mutable state of the per-clip counting loop in
`count_vehicles_in_video`: the counts dict, the `last_side` dict and the
`counted_ids` set. -/
structure ClipState where
  counts : List (String × Nat)
  lastSide : List (Nat × Q)
  counted : List Nat
deriving DecidableEq

/-- Initial counters of `count_vehicles_in_video`: every configured
category at 0, `Others` at 0 if enabled, the pedestrian label at 0. -/
def initCounts (cfg : CountingConfig) : List (String × Nat) :=
  let m := cfg.categoriesOrder.foldl (fun m c => aset m c 0) []
  let m := if cfg.includeOthers then aset m "Others" 0 else m
  aset m cfg.pedestrianLabel 0

/-- Initial loop state of `count_vehicles_in_video`. -/
def initState (cfg : CountingConfig) : ClipState :=
  ⟨initCounts cfg, [], []⟩

/-- `names_lookup` built in `count_vehicles_in_video`: each model class
name, lower-cased, mapped to its default category. `names` lists the
model's `names` dict items in key order. -/
def buildNamesLookup (names : List (Nat × String)) (cfg : CountingConfig) :
    List (String × String) :=
  names.foldl
    (fun acc kv => aset acc (lowerStr kv.2) (categoryForClass kv.2 [] cfg).1) []

/-- Body of the per-detection loop of `count_vehicles_in_video`: skip
already counted ids; compute the current side; read and then overwrite the
stored side; skip first observations and exact-zero sides; on a sign
change, classify and count the id once. -/
def stepDet (line : Line) (names : List (Nat × String))
    (lookup : List (String × String)) (cfg : CountingConfig)
    (s : ClipState) (d : Detection) : ClipState :=
  if d.objId ∈ s.counted then s
  else
    let sideNow := detSide line d
    let prev := alookup s.lastSide d.objId
    let s1 : ClipState := { s with lastSide := aset s.lastSide d.objId sideNow }
    match prev with
    | none => s1
    | some p =>
      if Q.eqb sideNow ⟨0, 1⟩ then s1
      else if Q.eqb p ⟨0, 1⟩ then s1
      else if (Q.ltb ⟨0, 1⟩ sideNow) == (Q.ltb ⟨0, 1⟩ p) then s1
      else
        let className := (alookup names d.cls).getD ""
        let category := (categoryForClass className lookup cfg).1
        { s1 with
          counts := aset s1.counts category ((alookup s1.counts category).getD 0 + 1),
          counted := d.objId :: s1.counted }

/-- `count_vehicles_in_video` from `atcc_pipeline.py`, minus the video and
model I/O: parse the counting line for the clip's frame size, then fold the
counting step over the clip's detection stream and return the counts
dict. -/
def countVehiclesInVideo (stream : List Detection) (names : List (Nat × String))
    (lineNorm : String) (frameW frameH : Q) (cfg : CountingConfig) :
    Except String (List (String × Nat)) :=
  match parseNormalizedLine lineNorm frameW frameH with
  | .error e => .error e
  | .ok countingLine =>
      let lookup := buildNamesLookup names cfg
      .ok ((stream.foldl (stepDet countingLine names lookup cfg) (initState cfg)).counts)

instance {ε α : Type} [DecidableEq ε] [DecidableEq α] : DecidableEq (Except ε α) := fun
  | .error a, .error b =>
      if h : a = b then .isTrue (by rw [h]) else .isFalse (by simp [h])
  | .error _, .ok _ => .isFalse (by simp)
  | .ok _, .error _ => .isFalse (by simp)
  | .ok a, .ok b =>
      if h : a = b then .isTrue (by rw [h]) else .isFalse (by simp [h])

/-- One row of the daily interval table produced by `process_full_day`:
the `Interval` label plus the numeric cells (categories, optionally
`Others`, `Total`, pedestrian), kept in dict insertion order. -/
structure Row where
  interval : String
  cells : List (String × Nat)
deriving DecidableEq

/-- `row.get(col, 0)` on a table row. -/
def rowGet (r : Row) (c : String) : Nat := (alookup r.cells c).getD 0

/-- Interval label built in `process_full_day`:
`hhmm(i * interval_minutes) ++ "-" ++ hhmm((i + 1) * interval_minutes)`. -/
def intervalLabel (i dur : Nat) : String :=
  hhmm (i * dur) ++ "-" ++ hhmm (i * dur + dur)

/-- Row construction of `process_full_day` (the per-clip normalisation to
the output schema): category columns in configured order, optional
`Others`, `Total` as the pedestrian-free sum read back from the row, and
the pedestrian column last. -/
def makeRow (cfg : CountingConfig) (label : String)
    (counts : List (String × Nat)) : Row :=
  let cells := cfg.categoriesOrder.foldl
    (fun acc col => aset acc col ((alookup counts col).getD 0)) []
  let cells := if cfg.includeOthers
    then aset cells "Others" ((alookup counts "Others").getD 0) else cells
  let totalNoPed := cfg.categoriesOrder.foldl
    (fun t col => t + (alookup cells col).getD 0) 0
  let totalNoPed := if cfg.includeOthers
    then totalNoPed + (alookup cells "Others").getD 0 else totalNoPed
  let cells := aset cells "Total" totalNoPed
  let cells := aset cells cfg.pedestrianLabel ((alookup counts cfg.pedestrianLabel).getD 0)
  ⟨label, cells⟩

/-- Column names of the daily table (`df.columns`): the cell keys shared by
every row, read from the first record. -/
def columnsOf (rows : List Row) : List String :=
  match rows with
  | [] => []
  | r :: _ => r.cells.map Prod.fst

/-- Column-wise sum `df[col].sum()` over the interval rows. -/
def colSum (rows : List Row) (c : String) : Nat :=
  (rows.map (fun r => rowGet r c)).sum

/-- The synthetic `Daily Total` row appended by `process_full_day`: every
numeric column summed column-wise, the `Interval` label replaced by the
literal `"Daily Total"`. -/
def dailyTotalRow (rows : List Row) : Row :=
  ⟨"Daily Total", (columnsOf rows).map (fun c => (c, colSum rows c))⟩

/-- The interval rows built by `process_full_day` from the per-clip
counts, in clip order: one row per clip, labelled from the clip ordinal
and the interval duration. -/
def intervalRows (cfg : CountingConfig) (dur : Nat)
    (countsList : List (List (String × Nat))) : List Row :=
  countsList.enum.map (fun ic => makeRow cfg (intervalLabel ic.1 dur) ic.2)

/-- The daily table built by `process_full_day`: the interval rows
terminated by the `Daily Total` row. -/
def makeTable (cfg : CountingConfig) (dur : Nat)
    (countsList : List (List (String × Nat))) : List Row :=
  intervalRows cfg dur countsList ++ [dailyTotalRow (intervalRows cfg dur countsList)]

/-- The `CountingConfig` instantiated by `process_full_day`: only the class
overrides are customisable, all other fields keep their defaults. -/
def pipelineCfg (ov : Option (List (String × String))) : CountingConfig :=
  { classMapOverrides := ov }

/-- Sequential clip processing of `process_full_day`: run the counter on
each clip in order, stopping at the first error (in which case no record
is accumulated for any clip). -/
def runClips (names : List (Nat × String)) (lineNorm : String)
    (frameW frameH : Q) (cfg : CountingConfig) :
    List (List Detection) → Except String (List (List (String × Nat)))
  | [] => .ok []
  | c :: rest =>
    match countVehiclesInVideo c names lineNorm frameW frameH cfg with
    | .error e => .error e
    | .ok counts =>
      match runClips names lineNorm frameW frameH cfg rest with
      | .error e => .error e
      | .ok tl => .ok (counts :: tl)

/-- `process_full_day` from `atcc_pipeline.py`, minus file I/O: build the
config from the overrides, process the clips sequentially and assemble the
daily table. `baseStart` models the `--base-start` argument: the source
parses it into `base_dt` (lines 325-328) but never uses it afterwards, so
the result does not depend on it. -/
def processFullDay (clips : List (List Detection)) (names : List (Nat × String))
    (lineNorm : String) (frameW frameH : Q) (ov : Option (List (String × String)))
    (dur : Nat) (baseStart : String) : Except String (List Row) :=
  let cfg := pipelineCfg ov
  let _base := baseStart
  match runClips names lineNorm frameW frameH cfg clips with
  | .error e => .error e
  | .ok countsList => .ok (makeTable cfg dur countsList)

/-- Interval-start minute parsed from an interval label in
`compute_hour_bins` / `compute_peak_hour_and_phf`:
`int(label[0:5].split(":")[0]) * 60 + int(label[0:5].split(":")[1])`.
Well-formed labels always parse; the source would raise on a malformed
label, the model defaults the failing component to 0. -/
def parseStartMin (interval : String) : Nat :=
  match strSplit ':' ⟨interval.data.take 5⟩ with
  | [hs, ms] => 60 * ((parseNatStr hs).getD 0) + (parseNatStr ms).getD 0
  | _ => 0

/-- Sort a list of naturals ascending (pandas sorts `groupby` keys). -/
def sortNat (l : List Nat) : List Nat := List.insertionSort (fun a b => a ≤ b) l

/-- Collapse adjacent duplicates; on a sorted list this yields the sorted
list of distinct values, i.e. pandas' `groupby` key sequence. -/
def dedupSorted : List Nat → List Nat
  | [] => []
  | [x] => [x]
  | x :: y :: rest =>
      if x = y then dedupSorted (y :: rest) else x :: dedupSorted (y :: rest)

/-- `compute_hour_bins` from `process_full_day`: drop the `Daily Total`
row, key every remaining row by `start_min // 60`, and sum the `Total`
column per hour key; the resulting series is indexed by the sorted distinct
hour keys, as pandas `groupby` produces. -/
def computeHourBins (rows : List Row) : List (Nat × Nat) :=
  let data := rows.filter (fun r => r.interval ≠ "Daily Total")
  let keys := dedupSorted (sortNat (data.map (fun r => parseStartMin r.interval / 60)))
  keys.map (fun h =>
    (h, ((data.filter (fun r => parseStartMin r.interval / 60 = h)).map
          (fun r => rowGet r "Total")).sum))

/-- `PeakHour` from `atcc_pipeline.py`. -/
structure PeakHour where
  label : String
  interval : String
  total : Nat
deriving DecidableEq

/-- pandas `Series.idxmax` on the window, threaded as a fold with the
running best `(index, value)`: a later entry replaces the best only when
strictly greater, so the first occurrence of the maximum wins. -/
def idxmaxFrom (h0 v0 : Nat) : List (Nat × Nat) → Nat × Nat
  | [] => (h0, v0)
  | hv :: rest =>
      if hv.2 > v0 then idxmaxFrom hv.1 hv.2 rest else idxmaxFrom h0 v0 rest

/-- `f"{h:02d}:00-{(h+1)%24:02d}:00"`. -/
def fmtHour (h : Nat) : String := pad2 h ++ ":00-" ++ pad2 ((h + 1) % 24) ++ ":00"

/-- `peak_in_range` from `process_full_day`: restrict the hourly series to
`start_h <= hour < end_h`; the empty window yields the `"N/A"`/0 sentinel,
otherwise the `idxmax` hour is reported with its hourly total. -/
def peakInRange (series : List (Nat × Nat)) (startH endH : Nat) (label : String) :
    PeakHour :=
  let window := series.filter (fun hv => startH ≤ hv.1 ∧ hv.1 < endH)
  match window with
  | [] => ⟨label, "N/A", 0⟩
  | hv :: rest =>
      let best := idxmaxFrom hv.1 hv.2 rest
      ⟨label, fmtHour best.1, best.2⟩

/-- One row of an externally supplied daily CSV in `atcc_analysis.py`: the
`Interval` cell plus the numeric cells present in that table (a missing
column is simply absent from every row). -/
structure ARow where
  interval : String
  cells : List (String × Int)
deriving DecidableEq

/-- `CATS` from `atcc_analysis.py`. -/
def CATS : List String :=
  ["2W", "3W", "Car", "LCV", "Bus", "Truck", "Others", "Total", "Pedestrian"]

/-- `df.columns` of an analysis table: the cell keys, shared by all rows,
read from the first row. -/
def dfColumns (df : List ARow) : List String :=
  match df with
  | [] => []
  | r :: _ => r.cells.map Prod.fst

/-- `df[col].sum()` over an analysis table. -/
def aColSum (df : List ARow) (c : String) : Int :=
  (df.map (fun r => (alookup r.cells c).getD 0)).sum

/-- The `Daily Total` row `compute_adt` synthesizes when a table lacks one:
each column that is in `CATS` summed over the table's rows (non-`CATS`
columns receive `None` in the source and are never read). -/
def synthDailyTotal (df : List ARow) : ARow :=
  ⟨"Daily Total",
   (dfColumns df).filterMap
     (fun c => if c ∈ CATS then some (c, aColSum df c) else none)⟩

/-- The `Daily Total` rows `compute_adt` takes from one day's table: the
rows labelled `"Daily Total"`, or the synthesized sum row when there are
none. -/
def dailyTotalsOf (df : List ARow) : List ARow :=
  let tot := df.filter (fun r => r.interval = "Daily Total")
  if tot = [] then [synthDailyTotal df] else tot

/-- `compute_adt` from `atcc_analysis.py`: stack every day's `Daily Total`
row (skipping empty tables), keep the `CATS` columns present in the first
stacked row, and report each kept category's mean over the rows where it is
present (pandas `mean` skips missing values), rounded half-to-even. -/
def computeAdt (days : List (List ARow)) : List (String × Int) :=
  let dailyTotals := ((days.filter (fun df => df ≠ [])).map dailyTotalsOf).flatten
  match dailyTotals with
  | [] => []
  | first :: _ =>
    let catCols := CATS.filter (fun c => c ∈ first.cells.map Prod.fst)
    catCols.map (fun c =>
      let vals := dailyTotals.filterMap (fun r => alookup r.cells c)
      (c, roundHalfEvenQ ⟨vals.sum, (vals.length : Int)⟩))

/-- `compute_pcu` from `atcc_analysis.py`: for each ADT row, append
`round(count * pcu_map.get(category, 1.0))`. -/
def computePcu (dfCounts : List (String × Int)) (pcuMap : List (String × Q)) :
    List (String × Int × Int) :=
  dfCounts.map (fun cv =>
    (cv.1, cv.2, roundHalfEvenQ (Q.mul ⟨cv.2, 1⟩ ((alookup pcuMap cv.1).getD ⟨1, 1⟩))))

/-- `data["Total"]` in `compute_peak_hour_and_phf`: rows of a table without
a `Total` column read 0, because the source fills a missing column with 0
(`data["Total"] = 0`, lines 70-71). -/
def aTotal (r : ARow) : Int := (alookup r.cells "Total").getD 0

/-- Interval-start minute of an analysis row. -/
def aStartMin (r : ARow) : Nat := parseStartMin r.interval

/-- `group["Total"].max()` with the source's empty-group default of 0. -/
def maxIntList (l : List Int) (dflt : Int) : Int :=
  match l with
  | [] => dflt
  | x :: xs => xs.foldl max x

/-- `data.sort_values("start_min")`: sort analysis rows by start minute. -/
def sortByMin (l : List ARow) : List ARow :=
  List.insertionSort (fun a b => aStartMin a ≤ aStartMin b) l

/-- One output row of `compute_peak_hour_and_phf`. -/
structure PhfRow where
  hour : String
  hourlyTotal : Int
  maxQ : Int
  phf : Q
deriving DecidableEq

/-- `data[data["Interval"] != "Daily Total"]`: the interval rows of an
analysis table, the Daily Total row dropped. -/
def nonTotalRows (df : List ARow) : List ARow :=
  df.filter (fun r => r.interval ≠ "Daily Total")

/-- The loop body of `compute_peak_hour_and_phf` for one hour bucket of
the (sorted) data: the hourly `Total` sum over the bucket, the highest
single-row `Total` in it, and `PHF = round(max_q * 4 / hour_total, 3)`
guarded to `0.0` when the hourly total is not positive. The multiplier is
the literal 4 from the source. -/
def phfRowAt (data : List ARow) (h : Nat) : PhfRow :=
  ⟨fmtHour h,
   ((data.filter (fun r => aStartMin r / 60 = h)).map aTotal).sum,
   maxIntList ((data.filter (fun r => aStartMin r / 60 = h)).map aTotal) 0,
   round3 (if 0 < ((data.filter (fun r => aStartMin r / 60 = h)).map aTotal).sum then
       Q.div ⟨maxIntList ((data.filter (fun r => aStartMin r / 60 = h)).map aTotal) 0 * 4, 1⟩
             ⟨((data.filter (fun r => aStartMin r / 60 = h)).map aTotal).sum, 1⟩
     else ⟨0, 1⟩)⟩

/-- `compute_peak_hour_and_phf` from `atcc_analysis.py`: drop the
`Daily Total` row, sort by start minute, bucket by `start_min // 60`
(pandas `groupby` iterates the sorted distinct keys), and report one
`phfRowAt` row per hour bucket. -/
def computePeakHourAndPhf (df : List ARow) : List PhfRow :=
  (dedupSorted (sortNat ((sortByMin (nonTotalRows df)).map (fun r => aStartMin r / 60)))).map
    (phfRowAt (sortByMin (nonTotalRows df)))

/-! ## Generic facts about the association-list model -/

theorem alookup_aset_self {α β : Type} [DecidableEq α] (m : List (α × β)) (k : α) (v : β) :
    alookup (aset m k v) k = some v := by
  induction m with
  | nil => simp [aset, alookup]
  | cons kv rest ih =>
    by_cases h : kv.1 = k
    · simp [aset, alookup, h]
    · simp [aset, alookup, h, ih]

/-- Total number of counted crossings in a counts dict. -/
def sumCounts (m : List (String × Nat)) : Nat := (m.map Prod.snd).sum

theorem sumCounts_aset_incr (m : List (String × Nat)) (k : String) :
    sumCounts (aset m k ((alookup m k).getD 0 + 1)) = sumCounts m + 1 := by
  induction m with
  | nil => simp [aset, alookup, sumCounts]
  | cons kv rest ih =>
    by_cases h : kv.1 = k
    · simp [aset, alookup, h, sumCounts]
      omega
    · simp only [aset, alookup, h, if_false, sumCounts, List.map_cons, List.sum_cons] at ih ⊢
      omega

/-! ## C1/C2: the per-clip counting state machine -/

/-- Count increments attributable to one object identifier along a
detection stream: the growth of the total counter sum at exactly the
steps that process a detection carrying that identifier. -/
def incrementsOf (line : Line) (names : List (Nat × String))
    (lookup : List (String × String)) (cfg : CountingConfig) (id : Nat) :
    ClipState → List Detection → Nat
  | _, [] => 0
  | s, d :: ds =>
    (if d.objId = id then
       sumCounts (stepDet line names lookup cfg s d).counts - sumCounts s.counts
     else 0) +
      incrementsOf line names lookup cfg id (stepDet line names lookup cfg s d) ds

theorem stepDet_of_counted (line : Line) (names : List (Nat × String))
    (lookup : List (String × String)) (cfg : CountingConfig)
    (s : ClipState) (d : Detection) (h : d.objId ∈ s.counted) :
    stepDet line names lookup cfg s d = s := by
  unfold stepDet
  rw [if_pos h]

theorem stepDet_of_not_counted (line : Line) (names : List (Nat × String))
    (lookup : List (String × String)) (cfg : CountingConfig)
    (s : ClipState) (d : Detection) (h : d.objId ∉ s.counted) :
    ((stepDet line names lookup cfg s d).counts = s.counts ∧
     (stepDet line names lookup cfg s d).counted = s.counted) ∨
    (sumCounts (stepDet line names lookup cfg s d).counts = sumCounts s.counts + 1 ∧
     (stepDet line names lookup cfg s d).counted = d.objId :: s.counted) := by
  unfold stepDet
  rw [if_neg h]
  cases halo : alookup s.lastSide d.objId with
  | none => exact Or.inl ⟨rfl, rfl⟩
  | some p =>
    simp only []
    by_cases h1 : Q.eqb (detSide line d) ⟨0, 1⟩ = true
    · rw [if_pos h1]; exact Or.inl ⟨rfl, rfl⟩
    · rw [if_neg h1]
      by_cases h2 : Q.eqb p ⟨0, 1⟩ = true
      · rw [if_pos h2]; exact Or.inl ⟨rfl, rfl⟩
      · rw [if_neg h2]
        by_cases h3 : (Q.ltb ⟨0, 1⟩ (detSide line d) == Q.ltb ⟨0, 1⟩ p) = true
        · rw [if_pos h3]; exact Or.inl ⟨rfl, rfl⟩
        · rw [if_neg h3]
          refine Or.inr ⟨?_, rfl⟩
          exact sumCounts_aset_incr _ _

theorem stepDet_counted_mono (line : Line) (names : List (Nat × String))
    (lookup : List (String × String)) (cfg : CountingConfig)
    (s : ClipState) (d : Detection) (x : Nat) (hx : x ∈ s.counted) :
    x ∈ (stepDet line names lookup cfg s d).counted := by
  by_cases h : d.objId ∈ s.counted
  · rw [stepDet_of_counted line names lookup cfg s d h]; exact hx
  · rcases stepDet_of_not_counted line names lookup cfg s d h with ⟨_, hc⟩ | ⟨_, hc⟩
    · rw [hc]; exact hx
    · rw [hc]; exact List.mem_cons_of_mem _ hx

theorem stepDet_counted_sub (line : Line) (names : List (Nat × String))
    (lookup : List (String × String)) (cfg : CountingConfig)
    (s : ClipState) (d : Detection) (x : Nat)
    (hx : x ∈ (stepDet line names lookup cfg s d).counted) :
    x ∈ s.counted ∨ x = d.objId := by
  by_cases h : d.objId ∈ s.counted
  · rw [stepDet_of_counted line names lookup cfg s d h] at hx; exact Or.inl hx
  · rcases stepDet_of_not_counted line names lookup cfg s d h with ⟨_, hc⟩ | ⟨_, hc⟩
    · rw [hc] at hx; exact Or.inl hx
    · rw [hc] at hx
      rcases List.mem_cons.mp hx with h1 | h1
      · exact Or.inr h1
      · exact Or.inl h1

theorem incrementsOf_le (line : Line) (names : List (Nat × String))
    (lookup : List (String × String)) (cfg : CountingConfig) (id : Nat) :
    ∀ (ds : List Detection) (s : ClipState),
      incrementsOf line names lookup cfg id s ds ≤ if id ∈ s.counted then 0 else 1 := by
  intro ds
  induction ds with
  | nil => intro s; simp [incrementsOf]
  | cons d ds ih =>
    intro s
    unfold incrementsOf
    have hrec := ih (stepDet line names lookup cfg s d)
    by_cases hid : d.objId = id
    · rw [if_pos hid]
      by_cases hin : id ∈ s.counted
      · have hstep := stepDet_of_counted line names lookup cfg s d (hid ▸ hin)
        rw [hstep] at hrec ⊢
        simp only [if_pos hin] at hrec ⊢
        omega
      · have hnot : d.objId ∉ s.counted := hid ▸ hin
        rcases stepDet_of_not_counted line names lookup cfg s d hnot with
          ⟨hcnt, hcd⟩ | ⟨hcnt, hcd⟩
        · rw [hcd] at hrec
          rw [hcnt]
          simp only [if_neg hin] at hrec ⊢
          omega
        · have hmem : id ∈ (stepDet line names lookup cfg s d).counted := by
            rw [hcd]; exact hid ▸ List.mem_cons_self _ _
          rw [if_pos hmem] at hrec
          rw [hcnt]
          simp only [if_neg hin]
          omega
    · rw [if_neg hid, Nat.zero_add]
      by_cases hin : id ∈ s.counted
      · have hmem := stepDet_counted_mono line names lookup cfg s d id hin
        rw [if_pos hmem] at hrec
        simp only [if_pos hin]
        omega
      · simp only [if_neg hin]
        by_cases hmem : id ∈ (stepDet line names lookup cfg s d).counted
        · rw [if_pos hmem] at hrec; omega
        · rw [if_neg hmem] at hrec; omega

/-- C1: over a whole clip, each object identifier causes at most one
counter increment — the total of all counters grows by at most 1 across
the steps that carry this identifier, starting from the initial state of
`count_vehicles_in_video`; and an identifier already in `counted_ids` is
ignored entirely (the step is the identity on the state). -/
theorem c1_at_most_one_count_per_id (line : Line) (names : List (Nat × String))
    (lookup : List (String × String)) (cfg : CountingConfig) (id : Nat)
    (stream : List Detection) :
    incrementsOf line names lookup cfg id (initState cfg) stream ≤ 1 ∧
    (∀ (s : ClipState) (d : Detection), d.objId ∈ s.counted →
       stepDet line names lookup cfg s d = s) := by
  constructor
  · have h := incrementsOf_le line names lookup cfg id stream (initState cfg)
    simpa [initState] using h
  · exact fun s d h => stepDet_of_counted line names lookup cfg s d h

theorem c1_witness :
    incrementsOf ⟨(⟨0,1⟩,⟨0,1⟩),(⟨1,1⟩,⟨0,1⟩)⟩ [(0,"car")] [] (pipelineCfg none) 1
      (initState (pipelineCfg none)) [⟨1,0,⟨0,1⟩,⟨0,1⟩,⟨0,1⟩,⟨0,1⟩⟩] ≤ 1 ∧
    stepDet ⟨(⟨0,1⟩,⟨0,1⟩),(⟨1,1⟩,⟨0,1⟩)⟩ [(0,"car")] [] (pipelineCfg none)
      ⟨[], [], [1]⟩ ⟨1,0,⟨0,1⟩,⟨0,1⟩,⟨0,1⟩,⟨0,1⟩⟩ = ⟨[], [], [1]⟩ := by
  have h := c1_at_most_one_count_per_id ⟨(⟨0,1⟩,⟨0,1⟩),(⟨1,1⟩,⟨0,1⟩)⟩ [(0,"car")]
    [] (pipelineCfg none) 1 [⟨1,0,⟨0,1⟩,⟨0,1⟩,⟨0,1⟩,⟨0,1⟩⟩]
  exact ⟨h.1, h.2 ⟨[], [], [1]⟩ ⟨1,0,⟨0,1⟩,⟨0,1⟩,⟨0,1⟩,⟨0,1⟩⟩ (by decide)⟩

/-- C2: a crossing is never counted on an identifier's first observation
(no stored side yet), and never on a step whose current side or stored
previous side is exactly zero; in the zero case the stored side is still
overwritten with the current side (for an identifier that is not already
counted, since counted identifiers are skipped before the update). -/
theorem c2_no_crossing_on_first_or_zero (line : Line) (names : List (Nat × String))
    (lookup : List (String × String)) (cfg : CountingConfig)
    (s : ClipState) (d : Detection) :
    (alookup s.lastSide d.objId = none →
       (stepDet line names lookup cfg s d).counts = s.counts) ∧
    ((Q.eqb (detSide line d) ⟨0, 1⟩ = true ∨
        (∃ p, alookup s.lastSide d.objId = some p ∧ Q.eqb p ⟨0, 1⟩ = true)) →
       (stepDet line names lookup cfg s d).counts = s.counts ∧
       (d.objId ∉ s.counted →
          alookup (stepDet line names lookup cfg s d).lastSide d.objId =
            some (detSide line d))) := by
  by_cases hctd : d.objId ∈ s.counted
  · have hs := stepDet_of_counted line names lookup cfg s d hctd
    exact ⟨fun _ => by rw [hs], fun _ => ⟨by rw [hs], fun hn => absurd hctd hn⟩⟩
  · unfold stepDet
    rw [if_neg hctd]
    cases halo : alookup s.lastSide d.objId with
    | none =>
      exact ⟨fun _ => rfl, fun _ => ⟨rfl, fun _ => alookup_aset_self _ _ _⟩⟩
    | some p =>
      dsimp only
      constructor
      · intro hnone
        exact absurd hnone (by simp)
      · intro hz
        by_cases h1 : Q.eqb (detSide line d) ⟨0, 1⟩ = true
        · rw [if_pos h1]
          exact ⟨rfl, fun _ => alookup_aset_self _ _ _⟩
        · rw [if_neg h1]
          rcases hz with hz1 | ⟨p2, hp2, hz2⟩
          · exact absurd hz1 h1
          · have hpeq : p2 = p := (Option.some.inj hp2).symm
            rw [if_pos (hpeq ▸ hz2)]
            exact ⟨rfl, fun _ => alookup_aset_self _ _ _⟩

theorem c2_witness :
    (stepDet ⟨(⟨0,1⟩,⟨0,1⟩),(⟨1,1⟩,⟨0,1⟩)⟩ [] [] (pipelineCfg none)
       ⟨[("Car",0)],[],[]⟩ ⟨7,0,⟨0,1⟩,⟨0,1⟩,⟨0,1⟩,⟨0,1⟩⟩).counts = [("Car",0)] ∧
    alookup (stepDet ⟨(⟨0,1⟩,⟨0,1⟩),(⟨1,1⟩,⟨0,1⟩)⟩ [] [] (pipelineCfg none)
       ⟨[("Car",0)],[],[]⟩ ⟨7,0,⟨0,1⟩,⟨0,1⟩,⟨0,1⟩,⟨0,1⟩⟩).lastSide 7 =
      some (detSide ⟨(⟨0,1⟩,⟨0,1⟩),(⟨1,1⟩,⟨0,1⟩)⟩ ⟨7,0,⟨0,1⟩,⟨0,1⟩,⟨0,1⟩,⟨0,1⟩⟩) := by
  have h := c2_no_crossing_on_first_or_zero ⟨(⟨0,1⟩,⟨0,1⟩),(⟨1,1⟩,⟨0,1⟩)⟩ [] []
    (pipelineCfg none) ⟨[("Car",0)],[],[]⟩ ⟨7,0,⟨0,1⟩,⟨0,1⟩,⟨0,1⟩,⟨0,1⟩⟩
  have h2 := h.2 (Or.inl (by decide))
  exact ⟨h2.1, h2.2 (by decide)⟩

/-! ## C3: Total column equals the sum of the vehicle-category columns -/

theorem alookup_graph {α β : Type} [DecidableEq α] (g : α → β) :
    ∀ (l : List α) (c : α), c ∈ l →
      alookup (l.map (fun x => (x, g x))) c = some (g c) := by
  intro l
  induction l with
  | nil => intro c hc; cases hc
  | cons a as ih =>
    intro c hc
    by_cases h : a = c
    · simp [alookup, h]
    · rcases List.mem_cons.mp hc with h1 | h1
      · exact absurd h1.symm h
      · simp [alookup, h, ih c h1]

/-- The cells of a row built by `process_full_day`: the six fixed
categories, `Others`, the pedestrian-free `Total`, and `Pedestrian`. -/
theorem makeRow_pipeline_cells (ov : Option (List (String × String)))
    (lbl : String) (counts : List (String × Nat)) :
    (makeRow (pipelineCfg ov) lbl counts).cells =
      [("2W", (alookup counts "2W").getD 0), ("3W", (alookup counts "3W").getD 0),
       ("Car", (alookup counts "Car").getD 0), ("LCV", (alookup counts "LCV").getD 0),
       ("Bus", (alookup counts "Bus").getD 0), ("Truck", (alookup counts "Truck").getD 0),
       ("Others", (alookup counts "Others").getD 0),
       ("Total", 0 + (alookup counts "2W").getD 0 + (alookup counts "3W").getD 0 +
         (alookup counts "Car").getD 0 + (alookup counts "LCV").getD 0 +
         (alookup counts "Bus").getD 0 + (alookup counts "Truck").getD 0 +
         (alookup counts "Others").getD 0),
       ("Pedestrian", (alookup counts "Pedestrian").getD 0)] := rfl

theorem rowTotal_makeRow (ov : Option (List (String × String)))
    (lbl : String) (counts : List (String × Nat)) :
    rowGet (makeRow (pipelineCfg ov) lbl counts) "Total" =
      rowGet (makeRow (pipelineCfg ov) lbl counts) "2W" +
      rowGet (makeRow (pipelineCfg ov) lbl counts) "3W" +
      rowGet (makeRow (pipelineCfg ov) lbl counts) "Car" +
      rowGet (makeRow (pipelineCfg ov) lbl counts) "LCV" +
      rowGet (makeRow (pipelineCfg ov) lbl counts) "Bus" +
      rowGet (makeRow (pipelineCfg ov) lbl counts) "Truck" +
      rowGet (makeRow (pipelineCfg ov) lbl counts) "Others" := by
  show 0 + (alookup counts "2W").getD 0 + (alookup counts "3W").getD 0 +
         (alookup counts "Car").getD 0 + (alookup counts "LCV").getD 0 +
         (alookup counts "Bus").getD 0 + (alookup counts "Truck").getD 0 +
         (alookup counts "Others").getD 0 =
       (alookup counts "2W").getD 0 + (alookup counts "3W").getD 0 +
         (alookup counts "Car").getD 0 + (alookup counts "LCV").getD 0 +
         (alookup counts "Bus").getD 0 + (alookup counts "Truck").getD 0 +
         (alookup counts "Others").getD 0
  omega

theorem colSum_total (rows : List Row)
    (h : ∀ r ∈ rows, rowGet r "Total" =
      rowGet r "2W" + rowGet r "3W" + rowGet r "Car" + rowGet r "LCV" +
      rowGet r "Bus" + rowGet r "Truck" + rowGet r "Others") :
    colSum rows "Total" =
      colSum rows "2W" + colSum rows "3W" + colSum rows "Car" + colSum rows "LCV" +
      colSum rows "Bus" + colSum rows "Truck" + colSum rows "Others" := by
  induction rows with
  | nil => simp [colSum]
  | cons r rs ih =>
    have hr := h r (List.mem_cons_self _ _)
    have hrs := ih (fun x hx => h x (List.mem_cons_of_mem _ hx))
    simp only [colSum, List.map_cons, List.sum_cons] at hrs ⊢
    omega

theorem rowGet_dailyTotalRow (rows : List Row) (c : String)
    (hc : c ∈ columnsOf rows) :
    rowGet (dailyTotalRow rows) c = colSum rows c := by
  unfold dailyTotalRow rowGet
  rw [alookup_graph (colSum rows) (columnsOf rows) c hc]
  rfl

/-- C3: in every daily table built by `process_full_day` — interval rows
and the Daily Total row alike — the `Total` column equals the sum of the
six fixed vehicle-category columns plus `Others` (Others is always enabled
in the pipeline config), with `Pedestrian` excluded. -/
theorem c3_total_is_category_sum (ov : Option (List (String × String)))
    (dur : Nat) (countsList : List (List (String × Nat))) (row : Row)
    (hrow : row ∈ makeTable (pipelineCfg ov) dur countsList) :
    rowGet row "Total" =
      rowGet row "2W" + rowGet row "3W" + rowGet row "Car" + rowGet row "LCV" +
      rowGet row "Bus" + rowGet row "Truck" + rowGet row "Others" := by
  have hall : ∀ r ∈ intervalRows (pipelineCfg ov) dur countsList,
      rowGet r "Total" =
        rowGet r "2W" + rowGet r "3W" + rowGet r "Car" + rowGet r "LCV" +
        rowGet r "Bus" + rowGet r "Truck" + rowGet r "Others" := by
    intro r hr
    rcases List.mem_map.mp hr with ⟨ic, _, rfl⟩
    exact rowTotal_makeRow ov _ ic.2
  unfold makeTable at hrow
  rcases List.mem_append.mp hrow with hmem | hmem
  · exact hall row hmem
  · rcases List.mem_singleton.mp hmem with rfl
    cases hrows : intervalRows (pipelineCfg ov) dur countsList with
    | nil =>
      rfl
    | cons r0 rs =>
      rw [hrows] at hall
      have hr0 : r0 ∈ (r0 :: rs) := List.mem_cons_self _ _
      have hr0m : r0 ∈ intervalRows (pipelineCfg ov) dur countsList := by
        rw [hrows]; exact hr0
      rcases List.mem_map.mp hr0m with ⟨ic, _, hr0eq⟩
      have hcols : columnsOf (r0 :: rs) =
          ["2W", "3W", "Car", "LCV", "Bus", "Truck", "Others", "Total", "Pedestrian"] := by
        show r0.cells.map Prod.fst = _
        rw [← hr0eq, makeRow_pipeline_cells]
        rfl
      rw [rowGet_dailyTotalRow _ "Total" (by rw [hcols]; simp),
          rowGet_dailyTotalRow _ "2W" (by rw [hcols]; simp),
          rowGet_dailyTotalRow _ "3W" (by rw [hcols]; simp),
          rowGet_dailyTotalRow _ "Car" (by rw [hcols]; simp),
          rowGet_dailyTotalRow _ "LCV" (by rw [hcols]; simp),
          rowGet_dailyTotalRow _ "Bus" (by rw [hcols]; simp),
          rowGet_dailyTotalRow _ "Truck" (by rw [hcols]; simp),
          rowGet_dailyTotalRow _ "Others" (by rw [hcols]; simp)]
      exact colSum_total _ hall

theorem c3_witness :
    rowGet ⟨"Daily Total",
      [("2W",0),("3W",0),("Car",5),("LCV",0),("Bus",0),("Truck",0),
       ("Others",0),("Total",5),("Pedestrian",0)]⟩ "Total" =
      rowGet ⟨"Daily Total",
        [("2W",0),("3W",0),("Car",5),("LCV",0),("Bus",0),("Truck",0),
         ("Others",0),("Total",5),("Pedestrian",0)]⟩ "2W" +
      rowGet ⟨"Daily Total",
        [("2W",0),("3W",0),("Car",5),("LCV",0),("Bus",0),("Truck",0),
         ("Others",0),("Total",5),("Pedestrian",0)]⟩ "3W" +
      rowGet ⟨"Daily Total",
        [("2W",0),("3W",0),("Car",5),("LCV",0),("Bus",0),("Truck",0),
         ("Others",0),("Total",5),("Pedestrian",0)]⟩ "Car" +
      rowGet ⟨"Daily Total",
        [("2W",0),("3W",0),("Car",5),("LCV",0),("Bus",0),("Truck",0),
         ("Others",0),("Total",5),("Pedestrian",0)]⟩ "LCV" +
      rowGet ⟨"Daily Total",
        [("2W",0),("3W",0),("Car",5),("LCV",0),("Bus",0),("Truck",0),
         ("Others",0),("Total",5),("Pedestrian",0)]⟩ "Bus" +
      rowGet ⟨"Daily Total",
        [("2W",0),("3W",0),("Car",5),("LCV",0),("Bus",0),("Truck",0),
         ("Others",0),("Total",5),("Pedestrian",0)]⟩ "Truck" +
      rowGet ⟨"Daily Total",
        [("2W",0),("3W",0),("Car",5),("LCV",0),("Bus",0),("Truck",0),
         ("Others",0),("Total",5),("Pedestrian",0)]⟩ "Others" :=
  c3_total_is_category_sum none 15 [[("Car", 5)]] _ (by decide)

/-! ## C6: the base start-of-day offset and the interval labels -/

/-- Modelled from the spec (4.4): the interval label with a supplied base
start-of-day offset, in minutes, added to both endpoints before
rendering. -/
def intervalLabelSpec (baseMinutes i dur : Nat) : String :=
  hhmm (baseMinutes + i * dur) ++ "-" ++ hhmm (baseMinutes + i * dur + dur)

/-- C6 (code bug): `process_full_day` parses `--base-start` into `base_dt`
(source lines 325-328) but never uses it, so the emitted interval labels
are always relative to minute 0 whatever base is supplied: the table for
any two base strings is identical, and with base "08:00", clip ordinal 0
and 15-minute intervals the emitted label is "00:00-00:15" where the
documented behaviour (base start used for labelling) gives "08:00-08:15". -/
theorem c6_base_start_ignored :
    (∀ b1 b2 : String,
       processFullDay [[]] [] "0,0.5;1,0.5" ⟨640,1⟩ ⟨480,1⟩ none 15 b1 =
         processFullDay [[]] [] "0,0.5;1,0.5" ⟨640,1⟩ ⟨480,1⟩ none 15 b2) ∧
    (processFullDay [[]] [] "0,0.5;1,0.5" ⟨640,1⟩ ⟨480,1⟩ none 15 "08:00").toOption.map
        (fun rows => rows.map Row.interval) = some ["00:00-00:15", "Daily Total"] ∧
    intervalLabel 0 15 = "00:00-00:15" ∧
    intervalLabelSpec 480 0 15 = "08:00-08:15" ∧
    ("00:00-00:15" : String) ≠ "08:00-08:15" :=
  ⟨fun _ _ => rfl, by decide, by decide, by decide, by decide⟩

/-! ## C8: malformed counting-line strings fail fast -/

/-- C8: when the counting-line string does not parse, the whole day's
processing returns exactly that configuration error before any clip is
counted — the result is the error and never a table, so no interval
record is accumulated and no report row is emitted. -/
theorem c8_malformed_line_fails_fast (lineNorm : String) (frameW frameH : Q)
    (e : String) (clips : List (List Detection)) (names : List (Nat × String))
    (ov : Option (List (String × String))) (dur : Nat) (base : String)
    (hparse : parseNormalizedLine lineNorm frameW frameH = .error e)
    (hne : clips ≠ []) :
    processFullDay clips names lineNorm frameW frameH ov dur base = .error e ∧
    ∀ t : List Row,
      processFullDay clips names lineNorm frameW frameH ov dur base ≠ .ok t := by
  cases clips with
  | nil => exact absurd rfl hne
  | cons c rest =>
    have h1 : countVehiclesInVideo c names lineNorm frameW frameH (pipelineCfg ov) =
        .error e := by
      unfold countVehiclesInVideo
      rw [hparse]
    have hr : runClips names lineNorm frameW frameH (pipelineCfg ov) (c :: rest) =
        .error e := by
      unfold runClips
      rw [h1]
    have h2 : processFullDay (c :: rest) names lineNorm frameW frameH ov dur base =
        .error e := by
      unfold processFullDay
      dsimp only
      rw [hr]
    exact ⟨h2, fun t ht => by rw [h2] at ht; exact Except.noConfusion ht⟩

theorem c8_witness :
    processFullDay [[]] [] "0,0.5" ⟨640,1⟩ ⟨480,1⟩ none 15 "00:00" =
      .error "Invalid --line format. Expected x1,y1;x2,y2 with 0..1 values" :=
  (c8_malformed_line_fails_fast "0,0.5" ⟨640,1⟩ ⟨480,1⟩
    "Invalid --line format. Expected x1,y1;x2,y2 with 0..1 values"
    [[]] [] none 15 "00:00" (by decide) (by decide)).1

/-! ## C5: peak-window selection -/

theorem idxmaxFrom_spec : ∀ (l : List (Nat × Nat)) (h0 v0 : Nat),
    (idxmaxFrom h0 v0 l = (h0, v0) ∨ idxmaxFrom h0 v0 l ∈ l) ∧
    v0 ≤ (idxmaxFrom h0 v0 l).2 ∧
    (∀ p ∈ l, p.2 ≤ (idxmaxFrom h0 v0 l).2) ∧
    ((idxmaxFrom h0 v0 l).2 = v0 → idxmaxFrom h0 v0 l = (h0, v0)) := by
  intro l
  induction l with
  | nil =>
    intro h0 v0
    exact ⟨Or.inl rfl, le_refl _, by simp, fun _ => rfl⟩
  | cons hv rest ih =>
    intro h0 v0
    by_cases hgt : hv.2 > v0
    · have key : idxmaxFrom h0 v0 (hv :: rest) = idxmaxFrom hv.1 hv.2 rest := by
        simp only [idxmaxFrom]; rw [if_pos hgt]
      obtain ⟨ih1, ih2, ih3, ih4⟩ := ih hv.1 hv.2
      rw [key]
      refine ⟨?_, ?_, ?_, ?_⟩
      · rcases ih1 with h | h
        · right; rw [h, Prod.mk.eta]; exact List.mem_cons_self _ _
        · exact Or.inr (List.mem_cons_of_mem _ h)
      · exact le_trans (le_of_lt hgt) ih2
      · intro p hp
        rcases List.mem_cons.mp hp with rfl | hp2
        · exact ih2
        · exact ih3 p hp2
      · intro hq
        rw [hq] at ih2
        omega
    · have key : idxmaxFrom h0 v0 (hv :: rest) = idxmaxFrom h0 v0 rest := by
        simp only [idxmaxFrom]; rw [if_neg hgt]
      obtain ⟨ih1, ih2, ih3, ih4⟩ := ih h0 v0
      rw [key]
      refine ⟨?_, ?_, ?_, ?_⟩
      · rcases ih1 with h | h
        · exact Or.inl h
        · exact Or.inr (List.mem_cons_of_mem _ h)
      · exact ih2
      · intro p hp
        rcases List.mem_cons.mp hp with rfl | hp2
        · omega
        · exact ih3 p hp2
      · exact ih4

theorem idxmaxFrom_lowest : ∀ (l : List (Nat × Nat)) (h0 v0 : Nat),
    List.Pairwise (fun a b => a.1 < b.1) ((h0, v0) :: l) →
    ∀ p ∈ (h0, v0) :: l, p.2 = (idxmaxFrom h0 v0 l).2 →
      (idxmaxFrom h0 v0 l).1 ≤ p.1 := by
  intro l
  induction l with
  | nil =>
    intro h0 v0 _ p hp _
    rcases List.mem_singleton.mp hp with rfl
    exact le_refl _
  | cons hv rest ih =>
    intro h0 v0 hpw p hp hpv
    rw [List.pairwise_cons] at hpw
    obtain ⟨hfst, htl⟩ := hpw
    obtain ⟨sp1, sp2, sp3, sp4⟩ := idxmaxFrom_spec rest hv.1 hv.2
    obtain ⟨sq1, sq2, sq3, sq4⟩ := idxmaxFrom_spec rest h0 v0
    by_cases hgt : hv.2 > v0
    · have key : idxmaxFrom h0 v0 (hv :: rest) = idxmaxFrom hv.1 hv.2 rest := by
        simp only [idxmaxFrom]; rw [if_pos hgt]
      rw [key] at hpv ⊢
      rcases List.mem_cons.mp hp with heq | hp2
      · exfalso
        have hx : v0 = (idxmaxFrom hv.1 hv.2 rest).2 := by rw [← hpv, heq]
        omega
      · exact ih hv.1 hv.2 htl p hp2 hpv
    · have key : idxmaxFrom h0 v0 (hv :: rest) = idxmaxFrom h0 v0 rest := by
        simp only [idxmaxFrom]; rw [if_neg hgt]
      rw [key] at hpv ⊢
      have hpw2 : List.Pairwise (fun a b : Nat × Nat => a.1 < b.1) ((h0, v0) :: rest) :=
        List.Pairwise.cons
          (fun b hb => hfst b (List.mem_cons_of_mem _ hb))
          (List.Pairwise.of_cons htl)
      rcases List.mem_cons.mp hp with heq | hp2
      · have hp3 : p ∈ (h0, v0) :: rest := by
          rw [heq]; exact List.mem_cons_self _ _
        exact ih h0 v0 hpw2 p hp3 hpv
      · rcases List.mem_cons.mp hp2 with heq | hp3
        · have h1 : p.2 = hv.2 := by rw [heq]
          have h2 : hv.2 ≤ v0 := le_of_not_lt hgt
          have hres : (idxmaxFrom h0 v0 rest).2 = v0 := by omega
          rw [sq4 hres]
          exact le_of_lt (hfst p (by rw [heq]; exact List.mem_cons_self _ _))
        · exact ih h0 v0 hpw2 p (List.mem_cons_of_mem _ hp3) hpv

/-- C5: the peak-window search over a strictly hour-sorted series (as
`compute_hour_bins` produces) returns the sentinel `("N/A", 0)` when no
bin falls in the inclusive-start/exclusive-end range, and otherwise the
in-range bin with the maximum hourly total, breaking ties by the lowest
hour index. -/
theorem c5_peak_window_selection (series : List (Nat × Nat)) (startH endH : Nat)
    (label : String)
    (hs : List.Pairwise (fun a b => a.1 < b.1) series) :
    (series.filter (fun hv => startH ≤ hv.1 ∧ hv.1 < endH) = [] →
       peakInRange series startH endH label = ⟨label, "N/A", 0⟩) ∧
    (∀ p ∈ series.filter (fun hv => startH ≤ hv.1 ∧ hv.1 < endH),
       p.2 ≤ (peakInRange series startH endH label).total) ∧
    (series.filter (fun hv => startH ≤ hv.1 ∧ hv.1 < endH) ≠ [] →
       ∃ hb, (hb, (peakInRange series startH endH label).total) ∈
           series.filter (fun hv => startH ≤ hv.1 ∧ hv.1 < endH) ∧
         (peakInRange series startH endH label).interval = fmtHour hb ∧
         (peakInRange series startH endH label).label = label ∧
         ∀ p ∈ series.filter (fun hv => startH ≤ hv.1 ∧ hv.1 < endH),
           p.2 = (peakInRange series startH endH label).total → hb ≤ p.1) := by
  have hpw := hs.filter (fun hv => decide (startH ≤ hv.1 ∧ hv.1 < endH))
  cases hfil : series.filter (fun hv => startH ≤ hv.1 ∧ hv.1 < endH) with
  | nil =>
    refine ⟨fun _ => ?_, fun p hp => absurd hp (by simp), fun h => absurd rfl h⟩
    unfold peakInRange
    rw [hfil]
  | cons hv rest =>
    rw [hfil] at hpw
    have hpk : peakInRange series startH endH label =
        ⟨label, fmtHour (idxmaxFrom hv.1 hv.2 rest).1, (idxmaxFrom hv.1 hv.2 rest).2⟩ := by
      unfold peakInRange
      rw [hfil]
    obtain ⟨sp1, sp2, sp3, sp4⟩ := idxmaxFrom_spec rest hv.1 hv.2
    refine ⟨fun h => absurd h (by simp), ?_, fun _ => ?_⟩
    · intro p hp
      rw [hpk]
      rcases List.mem_cons.mp hp with rfl | hp2
      · exact sp2
      · exact sp3 p hp2
    · refine ⟨(idxmaxFrom hv.1 hv.2 rest).1, ?_, ?_, ?_, ?_⟩
      · rw [hpk]
        rcases sp1 with h | h
        · rw [Prod.mk.eta, h, Prod.mk.eta]
          exact List.mem_cons_self _ _
        · rw [Prod.mk.eta]
          exact List.mem_cons_of_mem _ h
      · rw [hpk]
      · rw [hpk]
      · intro p hp hpv
        rw [hpk] at hpv
        exact idxmaxFrom_lowest rest hv.1 hv.2 hpw p hp hpv

theorem c5_witness :
    peakInRange [(6,20),(7,45),(8,45),(9,30)] 6 12 "Morning" =
      ⟨"Morning", "07:00-08:00", 45⟩ ∧
    (45 : Nat) ≤ (peakInRange [(6,20),(7,45),(8,45),(9,30)] 6 12 "Morning").total := by
  refine ⟨by decide, ?_⟩
  exact (c5_peak_window_selection [(6,20),(7,45),(8,45),(9,30)] 6 12 "Morning"
    (by decide)).2.1 (7, 45) (by decide)

/-! ## C4: the PHF rows reported by the analysis module -/

/-- One hour bin of an analysis table, straight from the unsorted
non-Daily-Total rows: the rows whose interval start minute divided by 60
is the given hour. -/
def binRows (df : List ARow) (h : Nat) : List ARow :=
  (nonTotalRows df).filter (fun r => aStartMin r / 60 = h)

/-- The `Total` values of one hour bin. -/
def binTotals (df : List ARow) (h : Nat) : List Int := (binRows df h).map aTotal

/-- The hour indices that get a report row: the sorted distinct values of
`start_min // 60` over the non-Daily-Total rows. -/
def analysisHours (df : List ARow) : List Nat :=
  dedupSorted (sortNat ((nonTotalRows df).map (fun r => aStartMin r / 60)))

/-- The report row for one hour bin, phrased directly over the bin of the
original (unsorted) table: hourly total, highest single-row total, and
`PHF = round(max * 4 / hour_total, 3)` with the zero guard. -/
def reportedRowFor (df : List ARow) (h : Nat) : PhfRow :=
  ⟨fmtHour h, (binTotals df h).sum, maxIntList (binTotals df h) 0,
   round3 (if 0 < (binTotals df h).sum then
       Q.div ⟨maxIntList (binTotals df h) 0 * 4, 1⟩ ⟨(binTotals df h).sum, 1⟩
     else ⟨0, 1⟩)⟩

theorem sortNat_perm (l : List Nat) : (sortNat l).Perm l := List.perm_insertionSort _ l

theorem sortNat_sorted (l : List Nat) : (sortNat l).Sorted (fun a b => a ≤ b) :=
  List.sorted_insertionSort _ l

theorem sortNat_eq_of_perm (l1 l2 : List Nat) (h : l1.Perm l2) : sortNat l1 = sortNat l2 :=
  List.eq_of_perm_of_sorted ((sortNat_perm l1).trans (h.trans (sortNat_perm l2).symm))
    (sortNat_sorted l1) (sortNat_sorted l2)

theorem sortByMin_perm (l : List ARow) : (sortByMin l).Perm l := List.perm_insertionSort _ l

theorem le_foldl_max : ∀ (xs : List Int) (a : Int), a ≤ xs.foldl max a := by
  intro xs
  induction xs with
  | nil => intro a; simp
  | cons x xs ih =>
    intro a
    simp only [List.foldl_cons]
    calc a ≤ max a x := le_max_left _ _
      _ ≤ xs.foldl max (max a x) := ih _

theorem foldl_max_ub : ∀ (xs : List Int) (a x : Int), x ∈ xs → x ≤ xs.foldl max a := by
  intro xs
  induction xs with
  | nil => intro a x hx; cases hx
  | cons y ys ih =>
    intro a x hx
    simp only [List.foldl_cons]
    rcases List.mem_cons.mp hx with rfl | hx2
    · calc x ≤ max a x := le_max_right _ _
        _ ≤ ys.foldl max (max a x) := le_foldl_max _ _
    · exact ih _ x hx2

theorem foldl_max_mem : ∀ (xs : List Int) (a : Int),
    xs.foldl max a = a ∨ xs.foldl max a ∈ xs := by
  intro xs
  induction xs with
  | nil => intro a; exact Or.inl rfl
  | cons y ys ih =>
    intro a
    simp only [List.foldl_cons]
    rcases ih (max a y) with h | h
    · rw [h]
      rcases max_choice a y with h2 | h2
      · exact Or.inl h2
      · exact Or.inr (by rw [h2]; exact List.mem_cons_self _ _)
    · exact Or.inr (List.mem_cons_of_mem _ h)

theorem maxIntList_mem (l : List Int) (d : Int) (h : l ≠ []) : maxIntList l d ∈ l := by
  cases l with
  | nil => exact absurd rfl h
  | cons x xs =>
    show List.foldl max x xs ∈ x :: xs
    rcases foldl_max_mem xs x with h2 | h2
    · rw [h2]; exact List.mem_cons_self _ _
    · exact List.mem_cons_of_mem _ h2

theorem le_maxIntList (l : List Int) (d x : Int) (h : x ∈ l) : x ≤ maxIntList l d := by
  cases l with
  | nil => cases h
  | cons y ys =>
    show x ≤ List.foldl max y ys
    rcases List.mem_cons.mp h with rfl | h2
    · exact le_foldl_max _ _
    · exact foldl_max_ub _ _ _ h2

theorem maxIntList_eq_of_perm (l1 l2 : List Int) (h : l1.Perm l2) :
    maxIntList l1 0 = maxIntList l2 0 := by
  by_cases hne : l1 = []
  · subst hne
    rw [h.symm.eq_nil]
  · have hne2 : l2 ≠ [] := fun hc => hne ((hc ▸ h).eq_nil)
    exact le_antisymm
      (le_maxIntList l2 0 _ (h.mem_iff.mp (maxIntList_mem l1 0 hne)))
      (le_maxIntList l1 0 _ (h.mem_iff.mpr (maxIntList_mem l2 0 hne2)))

theorem mem_dedupSorted : ∀ (l : List Nat) (x : Nat), x ∈ dedupSorted l ↔ x ∈ l := by
  intro l
  induction l with
  | nil => intro x; simp [dedupSorted]
  | cons a as ih =>
    intro x
    cases as with
    | nil => simp [dedupSorted]
    | cons b bs =>
      by_cases hab : a = b
      · rw [show dedupSorted (a :: b :: bs) = dedupSorted (b :: bs) by
          simp [dedupSorted, hab]]
        rw [ih x]
        subst hab
        simp [List.mem_cons]
      · rw [show dedupSorted (a :: b :: bs) = a :: dedupSorted (b :: bs) by
          simp [dedupSorted, hab]]
        simp [List.mem_cons, ih x]

theorem internalHours_eq (df : List ARow) :
    dedupSorted (sortNat ((sortByMin (nonTotalRows df)).map (fun r => aStartMin r / 60))) =
      analysisHours df := by
  unfold analysisHours
  exact congrArg dedupSorted
    (sortNat_eq_of_perm _ _ ((sortByMin_perm (nonTotalRows df)).map _))

theorem phfRowAt_eq_reported (df : List ARow) (h : Nat) :
    phfRowAt (sortByMin (nonTotalRows df)) h = reportedRowFor df h := by
  have hfil : ((sortByMin (nonTotalRows df)).filter
        (fun r => decide (aStartMin r / 60 = h))).Perm
      ((nonTotalRows df).filter (fun r => decide (aStartMin r / 60 = h))) :=
    (sortByMin_perm (nonTotalRows df)).filter _
  have hmap := hfil.map aTotal
  have hsum := hmap.sum_eq
  have hmax := maxIntList_eq_of_perm _ _ hmap
  unfold phfRowAt reportedRowFor binTotals binRows
  rw [hsum, hmax]

theorem computePeakHourAndPhf_eq_reported (df : List ARow) :
    computePeakHourAndPhf df = (analysisHours df).map (reportedRowFor df) := by
  unfold computePeakHourAndPhf
  rw [internalHours_eq df]
  exact List.map_congr_left (fun h _ => phfRowAt_eq_reported df h)

theorem floorQ_le_roundHalfEvenQ (q : Q) : floorQ q ≤ roundHalfEvenQ q := by
  unfold roundHalfEvenQ
  dsimp only
  split
  · exact le_refl _
  · split
    · omega
    · split <;> omega

theorem roundHalfEvenQ_ge (n d kk : Int) (hd : 0 < d) (h : kk * d ≤ n) :
    kk ≤ roundHalfEvenQ ⟨n, d⟩ := by
  have hfl : kk ≤ floorQ ⟨n, d⟩ := by
    show kk ≤ n.fdiv d
    rw [Int.fdiv_eq_ediv _ hd.le, Int.le_ediv_iff_mul_le hd]
    exact h
  exact le_trans hfl (floorQ_le_roundHalfEvenQ _)

theorem round3_div_pos_ne_zero (M T : Int) (hT : 0 < T) (h4 : T ≤ 4 * M) :
    ¬ Q.qeq (round3 (Q.div ⟨M * 4, 1⟩ ⟨T, 1⟩)) ⟨0, 1⟩ := by
  have hdiv : Q.div ⟨M * 4, 1⟩ ⟨T, 1⟩ = ⟨M * 4 * 1, 1 * T⟩ := by
    unfold Q.div Q.mul Q.inv
    rw [if_neg (show ¬ (⟨T, 1⟩ : Q).n < 0 from not_lt.mpr hT.le)]
  have hphf : round3 (Q.div ⟨M * 4, 1⟩ ⟨T, 1⟩) =
      ⟨roundHalfEvenQ ⟨M * 4 * 1 * 1000, 1 * T * 1⟩, 1000⟩ := by
    rw [hdiv]
    rfl
  have hk : 1000 ≤ roundHalfEvenQ ⟨M * 4 * 1 * 1000, 1 * T * 1⟩ := by
    apply roundHalfEvenQ_ge
    · nlinarith
    · nlinarith
  rw [hphf]
  simp only [Q.qeq, Q.eqb, beq_iff_eq]
  intro heq
  omega

/-- C4 (amended): every hour bin of a daily interval table gets exactly
the report rows `computePeakHourAndPhf` produces, whose PHF equals
`round((highest single-row Total) * 4 / hourly_total, 3)` — the literal
multiplier 4 of the source, which agrees with `60 / interval_minutes`
only for 15-minute tables — with PHF equal to 0.0 exactly when the bin's
hourly total is 0; the zero guard means no division by zero ever
happens. -/
theorem c4_phf_formula (df : List ARow)
    (hnn : ∀ r ∈ df, 0 ≤ aTotal r)
    (hlen : ∀ h ∈ analysisHours df, (binRows df h).length ≤ 4) :
    computePeakHourAndPhf df = (analysisHours df).map (reportedRowFor df) ∧
    (∀ h ∈ analysisHours df,
      (Q.qeq (reportedRowFor df h).phf ⟨0, 1⟩ ↔ (binTotals df h).sum = 0)) := by
  refine ⟨computePeakHourAndPhf_eq_reported df, ?_⟩
  intro h hmem
  have hbin_nn : ∀ x ∈ binTotals df h, 0 ≤ x := by
    intro x hx
    rcases List.mem_map.mp hx with ⟨r, hr, rfl⟩
    exact hnn r (List.mem_of_mem_filter (List.mem_of_mem_filter hr))
  have hbne : binTotals df h ≠ [] := by
    unfold analysisHours at hmem
    rw [mem_dedupSorted] at hmem
    have hmem2 := (sortNat_perm _).mem_iff.mp hmem
    rcases List.mem_map.mp hmem2 with ⟨r, hr, hfr⟩
    have hrbin : r ∈ binRows df h := List.mem_filter.mpr ⟨hr, by simpa using hfr⟩
    exact List.ne_nil_of_mem (List.mem_map_of_mem aTotal hrbin)
  constructor
  · intro hq
    by_contra hT0
    have hTpos : 0 < (binTotals df h).sum :=
      lt_of_le_of_ne (List.sum_nonneg hbin_nn) (Ne.symm hT0)
    have hM_mem := maxIntList_mem (binTotals df h) 0 hbne
    have hM_nn : 0 ≤ maxIntList (binTotals df h) 0 := hbin_nn _ hM_mem
    have hub : ∀ x ∈ binTotals df h, x ≤ maxIntList (binTotals df h) 0 :=
      fun x hx => le_maxIntList _ _ _ hx
    have hsum_le := List.sum_le_card_nsmul (binTotals df h) _ hub
    have hL : (binTotals df h).length ≤ 4 := by
      rw [binTotals, List.length_map]
      exact hlen h hmem
    have hT4M : (binTotals df h).sum ≤ 4 * maxIntList (binTotals df h) 0 := by
      have h1 : (binTotals df h).length • maxIntList (binTotals df h) 0 ≤
          4 * maxIntList (binTotals df h) 0 := by
        rw [nsmul_eq_mul]
        exact mul_le_mul_of_nonneg_right (by exact_mod_cast hL) hM_nn
      exact le_trans hsum_le h1
    have hphf_val : (reportedRowFor df h).phf =
        round3 (Q.div ⟨maxIntList (binTotals df h) 0 * 4, 1⟩ ⟨(binTotals df h).sum, 1⟩) := by
      unfold reportedRowFor
      dsimp only
      rw [if_pos hTpos]
    rw [hphf_val] at hq
    exact round3_div_pos_ne_zero _ _ hTpos hT4M hq
  · intro hT0
    have hphf_val : (reportedRowFor df h).phf = round3 ⟨0, 1⟩ := by
      unfold reportedRowFor
      dsimp only
      rw [hT0, if_neg (lt_irrefl 0)]
    rw [hphf_val]
    decide

/-- A 30-minute daily table: two half-hour rows in hour 0, totals 10 and
10. -/
def dfThirtyMin : List ARow :=
  [⟨"00:00-00:30", [("Total", 10)]⟩, ⟨"00:30-01:00", [("Total", 10)]⟩]

/-- Modelled from the spec (4.5): the PHF of one hour bin with the
multiplier written as `60 / interval_duration_minutes`, rounded to 3
decimals, 0.0 on a zero hourly total. -/
def phfSpecFormula (durMins : Nat) (maxSub hourTotal : Int) : Q :=
  if 0 < hourTotal then
    round3 (Q.div (Q.mul ⟨maxSub, 1⟩ (Q.div ⟨60, 1⟩ ⟨(durMins : Int), 1⟩)) ⟨hourTotal, 1⟩)
  else ⟨0, 1⟩

/-- C4 counterexample: on the 30-minute table the source reports
PHF = 2.0 for hour 0 (hard-coded multiplier 4: 10 * 4 / 20), while the
claim's `60 / interval_duration_minutes` multiplier gives
10 * (60/30) / 20 = 1.0. -/
theorem c4_counterexample :
    (computePeakHourAndPhf dfThirtyMin).map PhfRow.phf = [⟨2000, 1000⟩] ∧
    Q.qeq (phfSpecFormula 30 10 20) ⟨1, 1⟩ ∧
    ¬ Q.qeq ⟨2000, 1000⟩ (phfSpecFormula 30 10 20) := by decide

/-- The spec's three-bin 15-minute scenario table. -/
def dfQuarter : List ARow :=
  [⟨"00:00-00:15", [("Total", 4)]⟩, ⟨"00:15-00:30", [("Total", 10)]⟩,
   ⟨"00:30-00:45", [("Total", 6)]⟩]

theorem c4_witness :
    computePeakHourAndPhf dfQuarter = (analysisHours dfQuarter).map (reportedRowFor dfQuarter) ∧
    (Q.qeq (reportedRowFor dfQuarter 0).phf ⟨0, 1⟩ ↔ (binTotals dfQuarter 0).sum = 0) := by
  have h := c4_phf_formula dfQuarter (by decide) (by decide)
  exact ⟨h.1, h.2 0 (by decide)⟩

/-! ## C7: missing Daily Total row and missing Total column -/

theorem roundHalfEvenQ_int (v : Int) : roundHalfEvenQ ⟨v, 1⟩ = v := by
  have hfl : floorQ ⟨v, 1⟩ = v := Int.fdiv_one v
  have hc : Q.ltb (Q.sub ⟨v, 1⟩ ⟨floorQ ⟨v, 1⟩, 1⟩) ⟨1, 2⟩ = true := by
    rw [hfl]
    simp [Q.ltb, Q.sub]
  unfold roundHalfEvenQ
  dsimp only
  rw [if_pos hc]
  exact hfl

theorem alookup_filterMap_if (g : String → Int) :
    ∀ (l : List String) (c : String), c ∈ l → c ∈ CATS →
      alookup (l.filterMap (fun x => if x ∈ CATS then some (x, g x) else none)) c =
        some (g c) := by
  intro l
  induction l with
  | nil => intro c hc _; cases hc
  | cons a as ih =>
    intro c hc hp
    by_cases hac : a = c
    · subst hac
      rw [List.filterMap_cons, if_pos hp]
      simp [alookup]
    · rcases List.mem_cons.mp hc with h1 | h1
      · exact absurd h1.symm hac
      · by_cases hacat : a ∈ CATS
        · rw [List.filterMap_cons, if_pos hacat]
          simp only [alookup, if_neg hac]
          exact ih c h1 hp
        · rw [List.filterMap_cons, if_neg hacat]
          exact ih c h1 hp

theorem mem_synth_cols (df : List ARow) (c : String)
    (hc1 : c ∈ dfColumns df) (hc2 : c ∈ CATS) :
    c ∈ (synthDailyTotal df).cells.map Prod.fst := by
  apply List.mem_map.mpr
  refine ⟨(c, aColSum df c), ?_, rfl⟩
  apply List.mem_filterMap.mpr
  exact ⟨c, hc1, by rw [if_pos hc2]⟩

theorem alookup_synth (df : List ARow) (c : String)
    (hc1 : c ∈ dfColumns df) (hc2 : c ∈ CATS) :
    alookup (synthDailyTotal df).cells c = some (aColSum df c) :=
  alookup_filterMap_if (aColSum df) (dfColumns df) c hc1 hc2

theorem computeAdt_single_synth (df : List ARow) (c : String)
    (hne : df ≠ [])
    (hnoTot : ∀ r ∈ df, r.interval ≠ "Daily Total")
    (hc : c ∈ CATS) (hcol : c ∈ dfColumns df) :
    alookup (computeAdt [df]) c = some (aColSum df c) := by
  have hfil : df.filter (fun r => r.interval = "Daily Total") = [] :=
    List.filter_eq_nil_iff.mpr (fun r hr => by simpa using hnoTot r hr)
  have hdt : dailyTotalsOf df = [synthDailyTotal df] := by
    unfold dailyTotalsOf
    rw [hfil]
    rfl
  have hflat : ((([df] : List (List ARow)).filter (fun d => d ≠ [])).map dailyTotalsOf).flatten =
      [synthDailyTotal df] := by
    simp [List.filter, hne, hdt]
  unfold computeAdt
  rw [hflat]
  dsimp only
  have hcatm : c ∈ CATS.filter (fun x => x ∈ (synthDailyTotal df).cells.map Prod.fst) :=
    List.mem_filter.mpr ⟨hc, by simpa using mem_synth_cols df c hcol hc⟩
  rw [alookup_graph _ _ _ hcatm]
  have hv : ([synthDailyTotal df].filterMap (fun r => alookup r.cells c)) =
      [aColSum df c] := by
    simp [List.filterMap, alookup_synth df c hcol hc]
  rw [hv]
  simp [roundHalfEvenQ_int]

theorem phf_zero_when_no_total (df : List ARow)
    (hnoCol : ∀ r ∈ df, alookup r.cells "Total" = none) :
    ∀ row ∈ computePeakHourAndPhf df,
      row.hourlyTotal = 0 ∧ row.maxQ = 0 ∧ Q.qeq row.phf ⟨0, 1⟩ := by
  intro row hrow
  rw [computePeakHourAndPhf_eq_reported] at hrow
  rcases List.mem_map.mp hrow with ⟨h, _, rfl⟩
  have hz : ∀ x ∈ binTotals df h, x = 0 := by
    intro x hx
    rcases List.mem_map.mp hx with ⟨r, hr, rfl⟩
    have hrdf : r ∈ df := List.mem_of_mem_filter (List.mem_of_mem_filter hr)
    unfold aTotal
    rw [hnoCol r hrdf]
    rfl
  have hsum : (binTotals df h).sum = 0 := List.sum_eq_zero hz
  have hmax : maxIntList (binTotals df h) 0 = 0 := by
    by_cases hbe : binTotals df h = []
    · rw [hbe]; rfl
    · exact hz _ (maxIntList_mem _ 0 hbe)
  refine ⟨hsum, hmax, ?_⟩
  have hphf : (reportedRowFor df h).phf = round3 ⟨0, 1⟩ := by
    unfold reportedRowFor
    dsimp only
    rw [hsum, if_neg (lt_irrefl 0)]
  rw [hphf]
  decide

/-- C7 (amended): a missing Daily Total row in an externally supplied
table is synthesized by summing the table's interval rows per category
column, and the multi-day analysis proceeds; a missing `Total` column is
filled with zeros by `compute_peak_hour_and_phf` (not synthesized by
summation), which also proceeds, reporting one row per hour bin with all
hourly totals 0. Neither absence is fatal. -/
theorem c7_missing_data_handling (df : List ARow) (c : String)
    (hne : df ≠ [])
    (hnoTot : ∀ r ∈ df, r.interval ≠ "Daily Total")
    (hc : c ∈ CATS) (hcol : c ∈ dfColumns df) :
    alookup (computeAdt [df]) c = some (aColSum df c) ∧
    ((∀ r ∈ df, alookup r.cells "Total" = none) →
       ∀ row ∈ computePeakHourAndPhf df,
         row.hourlyTotal = 0 ∧ row.maxQ = 0 ∧ Q.qeq row.phf ⟨0, 1⟩) ∧
    (computePeakHourAndPhf df).length = (analysisHours df).length := by
  refine ⟨computeAdt_single_synth df c hne hnoTot hc hcol,
          phf_zero_when_no_total df, ?_⟩
  rw [computePeakHourAndPhf_eq_reported]
  exact List.length_map _ _

/-- A table with a `Car` column but no `Total` column and no Daily Total
row. -/
def dfNoTotalCol : List ARow := [⟨"00:00-00:15", [("Car", 5)]⟩]

/-- C7 counterexample: with the `Total` column missing,
`compute_peak_hour_and_phf` reports an hourly total of 0 — the column is
filled with zeros — whereas synthesis by summation over the category
columns would report 5. -/
theorem c7_counterexample :
    (computePeakHourAndPhf dfNoTotalCol).map PhfRow.hourlyTotal = [0] ∧
    aColSum dfNoTotalCol "Car" = 5 ∧ (0 : Int) ≠ 5 := by decide

theorem c7_witness :
    alookup (computeAdt [dfNoTotalCol]) "Car" = some (aColSum dfNoTotalCol "Car") ∧
    (computePeakHourAndPhf dfNoTotalCol).length = (analysisHours dfNoTotalCol).length ∧
    ((⟨"00:00-01:00", 0, 0, ⟨0, 1000⟩⟩ : PhfRow).hourlyTotal = 0 ∧
      (⟨"00:00-01:00", 0, 0, ⟨0, 1000⟩⟩ : PhfRow).maxQ = 0 ∧
      Q.qeq (⟨"00:00-01:00", 0, 0, ⟨0, 1000⟩⟩ : PhfRow).phf ⟨0, 1⟩) := by
  have h := c7_missing_data_handling dfNoTotalCol "Car"
    (by decide) (by decide) (by decide) (by decide)
  exact ⟨h.1, h.2.2, h.2.1 (by decide) ⟨"00:00-01:00", 0, 0, ⟨0, 1000⟩⟩ (by decide)⟩

/-! ## C9: ADT and PCU-converted ADT -/

theorem filterMap_alookup_all_some (c : String) :
    ∀ (l : List ARow), (∀ r ∈ l, (alookup r.cells c).isSome = true) →
      l.filterMap (fun r => alookup r.cells c) =
        l.map (fun r => (alookup r.cells c).getD 0) := by
  intro l
  induction l with
  | nil => intro _; rfl
  | cons r rs ih =>
    intro hall
    have hs := hall r (List.mem_cons_self _ _)
    rw [List.filterMap_cons, List.map_cons]
    cases hsome : alookup r.cells c with
    | none => rw [hsome] at hs; simp at hs
    | some v =>
      dsimp only
      rw [ih (fun x hx => hall x (List.mem_cons_of_mem _ hx))]
      rfl

theorem flatten_map_singleton {α β : Type} (f : α → β) :
    ∀ l : List α, (l.map (fun x => [f x])).flatten = l.map f := by
  intro l
  induction l with
  | nil => rfl
  | cons x xs ih => simp [ih]

theorem alookup_computePcu (dfCounts : List (String × Int))
    (pcuMap : List (String × Q)) (c : String) :
    alookup (computePcu dfCounts pcuMap) c =
      (alookup dfCounts c).map
        (fun n => (n, roundHalfEvenQ (Q.mul ⟨n, 1⟩ ((alookup pcuMap c).getD ⟨1, 1⟩)))) := by
  induction dfCounts with
  | nil => rfl
  | cons kv rest ih =>
    by_cases h : kv.1 = c
    · simp [computePcu, alookup, h]
    · simp only [computePcu, List.map_cons, alookup, if_neg h] at ih ⊢
      exact ih

/-- C9: over N nonempty daily tables, each carrying exactly one
`Daily Total` row, the reported ADT for a category present in them equals
the arithmetic mean of that category's Daily Total values, rounded
half-to-even to the nearest integer (the mean is the fraction
sum / N), and the reported PCU value equals `round(ADT * factor)` with
the factor defaulting to 1.0 for a category without an explicit entry. -/
theorem c9_adt_and_pcu (df0 : List ARow) (rest : List (List ARow)) (c : String)
    (pcuMap : List (String × Q)) (tr : List ARow → ARow)
    (hfilter : ∀ df ∈ df0 :: rest,
      df.filter (fun r => r.interval = "Daily Total") = [tr df])
    (hc : c ∈ CATS)
    (hcol0 : c ∈ (tr df0).cells.map Prod.fst)
    (hcolAll : ∀ df ∈ df0 :: rest, (alookup (tr df).cells c).isSome = true) :
    alookup (computeAdt (df0 :: rest)) c =
      some (roundHalfEvenQ
        ⟨((df0 :: rest).map (fun df => (alookup (tr df).cells c).getD 0)).sum,
         ((df0 :: rest).length : Int)⟩) ∧
    alookup (computePcu (computeAdt (df0 :: rest)) pcuMap) c =
      some (roundHalfEvenQ
        ⟨((df0 :: rest).map (fun df => (alookup (tr df).cells c).getD 0)).sum,
         ((df0 :: rest).length : Int)⟩,
        roundHalfEvenQ (Q.mul
          ⟨roundHalfEvenQ
            ⟨((df0 :: rest).map (fun df => (alookup (tr df).cells c).getD 0)).sum,
             ((df0 :: rest).length : Int)⟩, 1⟩
          ((alookup pcuMap c).getD ⟨1, 1⟩))) := by
  have hne : ∀ df ∈ df0 :: rest, df ≠ [] := by
    intro df hdf hcon
    have hx := hfilter df hdf
    rw [hcon] at hx
    simp at hx
  have hfilkeep : (df0 :: rest).filter (fun d => d ≠ []) = df0 :: rest :=
    List.filter_eq_self.mpr (fun d hd => by simpa using hne d hd)
  have hdtof : ∀ df ∈ df0 :: rest, dailyTotalsOf df = [tr df] := by
    intro df hdf
    unfold dailyTotalsOf
    rw [hfilter df hdf]
    rw [if_neg (List.cons_ne_nil _ _)]
  have hflat : ((df0 :: rest).map dailyTotalsOf).flatten = (df0 :: rest).map tr := by
    rw [List.map_congr_left hdtof, flatten_map_singleton]
  have hall2 : ∀ r ∈ (df0 :: rest).map tr, (alookup r.cells c).isSome = true := by
    intro r hr
    rcases List.mem_map.mp hr with ⟨df, hdf, rfl⟩
    exact hcolAll df hdf
  have hfm := filterMap_alookup_all_some c ((df0 :: rest).map tr) hall2
  have hcm : c ∈ CATS.filter (fun x => x ∈ (tr df0).cells.map Prod.fst) :=
    List.mem_filter.mpr ⟨hc, by simpa using hcol0⟩
  have hadt : alookup (computeAdt (df0 :: rest)) c =
      some (roundHalfEvenQ
        ⟨((df0 :: rest).map (fun df => (alookup (tr df).cells c).getD 0)).sum,
         ((df0 :: rest).length : Int)⟩) := by
    have hmc : List.map tr (df0 :: rest) = tr df0 :: List.map tr rest := rfl
    rw [hmc] at hfm
    unfold computeAdt
    rw [hfilkeep, hflat, hmc]
    dsimp only
    rw [alookup_graph _ _ _ hcm]
    rw [hfm, ← hmc, List.map_map]
    have hcomp : ((fun r => (alookup r.cells c).getD 0) ∘ tr) =
        (fun df => (alookup (tr df).cells c).getD 0) := rfl
    rw [hcomp, List.length_map]
  refine ⟨hadt, ?_⟩
  rw [alookup_computePcu, hadt]
  rfl

instance : Inhabited ARow := ⟨⟨"", []⟩⟩

/-- Day 1 of the C9 witness: Daily Total Car count 100. -/
def day9a : List ARow := [⟨"Daily Total", [("Car", 100)]⟩]

/-- Day 2 of the C9 witness: Daily Total Car count 121. -/
def day9b : List ARow := [⟨"Daily Total", [("Car", 121)]⟩]

theorem c9_witness :
    alookup (computeAdt [day9a, day9b]) "Car" =
      some (roundHalfEvenQ
        ⟨(([day9a, day9b] : List (List ARow)).map
            (fun df => (alookup df.headI.cells "Car").getD 0)).sum,
         (([day9a, day9b] : List (List ARow)).length : Int)⟩) ∧
    alookup (computePcu (computeAdt [day9a, day9b]) [("Car", ⟨3, 2⟩)]) "Car" =
      some (roundHalfEvenQ
        ⟨(([day9a, day9b] : List (List ARow)).map
            (fun df => (alookup df.headI.cells "Car").getD 0)).sum,
         (([day9a, day9b] : List (List ARow)).length : Int)⟩,
        roundHalfEvenQ (Q.mul
          ⟨roundHalfEvenQ
            ⟨(([day9a, day9b] : List (List ARow)).map
                (fun df => (alookup df.headI.cells "Car").getD 0)).sum,
             (([day9a, day9b] : List (List ARow)).length : Int)⟩, 1⟩
          ((alookup [("Car", (⟨3, 2⟩ : Q))] "Car").getD ⟨1, 1⟩))) :=
  c9_adt_and_pcu day9a [day9b] "Car" [("Car", ⟨3, 2⟩)] (fun df => df.headI)
    (by decide) (by decide) (by decide) (by decide)

/-! ## C10: crossings resolved to an unlisted category name -/

/-- Two detections of one tracked object (id 1, model class 0) whose box
centre moves from below to above the counting line within one clip: a
single crossing. -/
def c10Stream : List Detection :=
  [⟨1, 0, ⟨0, 1⟩, ⟨0, 1⟩, ⟨0, 1⟩, ⟨0, 1⟩⟩, ⟨1, 0, ⟨0, 1⟩, ⟨4, 1⟩, ⟨0, 1⟩, ⟨4, 1⟩⟩]

/-- The counts dict of `count_vehicles_in_video` before the new key. -/
def c10Init : List (String × Nat) :=
  [("2W", 0), ("3W", 0), ("Car", 0), ("LCV", 0), ("Bus", 0), ("Truck", 0),
   ("Others", 0), ("Pedestrian", 0)]

/-- C10: when a caller override resolves a detected crossing to a category
name outside the configured category order and different from `Others`,
the pedestrian label and the reserved `Total` column, the crossing is
recorded in the per-clip counts dict under that new key (and it is the
only count), but the exported row built from those counts has no such
column and its `Total` is 0 — the crossing is excluded from the row. -/
theorem c10_unlisted_category_dropped_from_row (cat : String)
    (h1 : cat ∉ (["2W", "3W", "Car", "LCV", "Bus", "Truck"] : List String))
    (h2 : cat ≠ "Others") (h3 : cat ≠ "Pedestrian") (h4 : cat ≠ "Total") :
    alookup ((countVehiclesInVideo c10Stream [(0, "zebra")] "0,0.5;1,0.5" ⟨2, 1⟩ ⟨2, 1⟩
        (pipelineCfg (some [("zebra", cat)]))).toOption.getD []) cat = some 1 ∧
    sumCounts ((countVehiclesInVideo c10Stream [(0, "zebra")] "0,0.5;1,0.5" ⟨2, 1⟩ ⟨2, 1⟩
        (pipelineCfg (some [("zebra", cat)]))).toOption.getD []) = 1 ∧
    alookup (makeRow (pipelineCfg (some [("zebra", cat)])) "00:00-00:15"
        ((countVehiclesInVideo c10Stream [(0, "zebra")] "0,0.5;1,0.5" ⟨2, 1⟩ ⟨2, 1⟩
          (pipelineCfg (some [("zebra", cat)]))).toOption.getD [])).cells cat = none ∧
    rowGet (makeRow (pipelineCfg (some [("zebra", cat)])) "00:00-00:15"
        ((countVehiclesInVideo c10Stream [(0, "zebra")] "0,0.5;1,0.5" ⟨2, 1⟩ ⟨2, 1⟩
          (pipelineCfg (some [("zebra", cat)]))).toOption.getD [])) "Total" = 0 := by
  simp only [List.mem_cons, List.not_mem_nil, or_false, not_or] at h1
  obtain ⟨n2w, n3w, ncar, nlcv, nbus, ntruck⟩ := h1
  have m2w : ("2W" : String) ≠ cat := Ne.symm n2w
  have m3w : ("3W" : String) ≠ cat := Ne.symm n3w
  have mcar : ("Car" : String) ≠ cat := Ne.symm ncar
  have mlcv : ("LCV" : String) ≠ cat := Ne.symm nlcv
  have mbus : ("Bus" : String) ≠ cat := Ne.symm nbus
  have mtruck : ("Truck" : String) ≠ cat := Ne.symm ntruck
  have moth : ("Others" : String) ≠ cat := Ne.symm h2
  have mped : ("Pedestrian" : String) ≠ cat := Ne.symm h3
  have mtot : ("Total" : String) ≠ cat := Ne.symm h4
  have ha : alookup c10Init cat = none := by
    simp [alookup, c10Init, m2w, m3w, mcar, mlcv, mbus, mtruck, moth, mped]
  have hcv : countVehiclesInVideo c10Stream [(0, "zebra")] "0,0.5;1,0.5" ⟨2, 1⟩ ⟨2, 1⟩
      (pipelineCfg (some [("zebra", cat)])) =
      .ok (aset c10Init cat ((alookup c10Init cat).getD 0 + 1)) := rfl
  have haset : aset c10Init cat ((alookup c10Init cat).getD 0 + 1) =
      c10Init ++ [(cat, 1)] := by
    rw [ha]
    simp [aset, c10Init, m2w, m3w, mcar, mlcv, mbus, mtruck, moth, mped]
  have hcounts : (countVehiclesInVideo c10Stream [(0, "zebra")] "0,0.5;1,0.5" ⟨2, 1⟩ ⟨2, 1⟩
      (pipelineCfg (some [("zebra", cat)]))).toOption.getD [] = c10Init ++ [(cat, 1)] := by
    rw [hcv]
    exact haset
  rw [hcounts]
  have hrow : makeRow (pipelineCfg (some [("zebra", cat)])) "00:00-00:15"
      (c10Init ++ [(cat, 1)]) =
      ⟨"00:00-00:15",
       [("2W", 0), ("3W", 0), ("Car", 0), ("LCV", 0), ("Bus", 0), ("Truck", 0),
        ("Others", 0), ("Total", 0), ("Pedestrian", 0)]⟩ := rfl
  rw [hrow]
  refine ⟨?_, rfl, ?_, rfl⟩
  · simp [alookup, c10Init, m2w, m3w, mcar, mlcv, mbus, mtruck, moth, mped]
  · simp [alookup, m2w, m3w, mcar, mlcv, mbus, mtruck, moth, mped, mtot]

theorem c10_witness :
    alookup ((countVehiclesInVideo c10Stream [(0, "zebra")] "0,0.5;1,0.5" ⟨2, 1⟩ ⟨2, 1⟩
        (pipelineCfg (some [("zebra", "Cart")]))).toOption.getD []) "Cart" = some 1 ∧
    sumCounts ((countVehiclesInVideo c10Stream [(0, "zebra")] "0,0.5;1,0.5" ⟨2, 1⟩ ⟨2, 1⟩
        (pipelineCfg (some [("zebra", "Cart")]))).toOption.getD []) = 1 ∧
    alookup (makeRow (pipelineCfg (some [("zebra", "Cart")])) "00:00-00:15"
        ((countVehiclesInVideo c10Stream [(0, "zebra")] "0,0.5;1,0.5" ⟨2, 1⟩ ⟨2, 1⟩
          (pipelineCfg (some [("zebra", "Cart")]))).toOption.getD [])).cells "Cart" = none ∧
    rowGet (makeRow (pipelineCfg (some [("zebra", "Cart")])) "00:00-00:15"
        ((countVehiclesInVideo c10Stream [(0, "zebra")] "0,0.5;1,0.5" ⟨2, 1⟩ ⟨2, 1⟩
          (pipelineCfg (some [("zebra", "Cart")]))).toOption.getD [])) "Total" = 0 :=
  c10_unlisted_category_dropped_from_row "Cart"
    (by decide) (by decide) (by decide) (by decide)
